import Mathlib

/-!
Verification of the retrieval-augmented answer engine of the Bot-deploy
repository (src/shc/rag.py and src/scripts/ingest_docs.py).

Python strings are modeled as lists of characters (`Str`), Python floats as
exact rationals (`ℚ`), Python ints as `Int`/`Nat`.  External collaborators
(the sentence-transformer embedder, the rapidfuzz lexical metric, the PDF
text extractor and the generation providers) are passed in as explicit
function parameters; the faiss flat inner-product index is modeled by an
exact scan (`flatSearch`) that returns descending scores and pads with the
index -1 when fewer vectors than requested exist, as the real index does.
-/

abbrev Str := List Char

def str (s : String) : Str := s.data

def isSpace (c : Char) : Bool := c.isWhitespace

/-- Python str.lstrip(): drop leading whitespace. -/
def pyLStrip (s : Str) : Str := s.dropWhile isSpace

/-- Python str.rstrip(): drop trailing whitespace. -/
def pyRStrip (s : Str) : Str := (s.reverse.dropWhile isSpace).reverse

/-- Python str.strip(). -/
def pyStrip (s : Str) : Str := pyRStrip (pyLStrip s)

/-- Python sep.join(parts). -/
def pyJoin (sep : Str) : List Str → Str
  | [] => []
  | [x] => x
  | x :: y :: rest => x ++ sep ++ pyJoin sep (y :: rest)

/-- Python str.split(sep) generalized over a separator predicate: cut the
string at every separator character, keeping empty pieces. -/
def pySplitP (p : Char → Bool) : Str → List Str
  | [] => [[]]
  | c :: rest =>
    match pySplitP p rest with
    | [] => [[]]
    | q :: qs => if p c then [] :: q :: qs else (c :: q) :: qs

/-- Python str.split() with no argument: split on whitespace runs and drop
the empty pieces. -/
def pySplitWs (s : Str) : List Str := (pySplitP isSpace s).filter (fun w => w ≠ [])

/-- Python int() applied to a float: truncation toward zero. -/
def truncInt (q : ℚ) : Int := q.num / q.den

/-- Python str(int). -/
def intStr (i : Int) : Str :=
  if i < 0 then '-' :: Nat.toDigits 10 i.natAbs else Nat.toDigits 10 i.toNat

/-- First-match association lookup, modeling Python dict.get. -/
def lookupAssoc {β : Type} : List (Str × β) → Str → Option β
  | [], _ => none
  | (k, v) :: rest, key => if k = key then some v else lookupAssoc rest key

/-- Python pathlib Path(...).name: the part after the final slash. -/
def pyPathName (s : Str) : Str :=
  ((pySplitP (fun c => c = '/') s).getLast?).getD s

/-- Python pathlib Path(...).stem: the name with its last extension dropped
(a leading dot does not start an extension). -/
def pyStem (s : Str) : Str :=
  let b := pyPathName s
  let r := b.reverse
  let rest := r.dropWhile (fun c => c ≠ '.')
  match rest with
  | [] => b
  | _ :: core => if core = [] then b else core.reverse

/-! ## src/scripts/ingest_docs.py -/

/-- ingest_docs.sanitize_shortname, applied to the stem of the path:
`stem = path.stem.strip() or "document"`, replace each non-alphanumeric
character by an underscore, then `"_".join(filter(None, cleaned.split("_")))`,
returning "document" when the result is empty.  Python's unicode isalnum is
modeled by Char.isAlphanum. -/
def sanitize_shortname (stem0 : Str) : Str :=
  let stem1 := pyStrip stem0
  let stem := if stem1 = [] then str "document" else stem1
  let cleaned := stem.map (fun ch => if ch.isAlphanum then ch else '_')
  let cleaned2 := pyJoin ['_'] ((pySplitP (fun c => c = '_') cleaned).filter (fun w => w ≠ []))
  if cleaned2 = [] then str "document" else cleaned2

/-- The while-loop of ingest_docs.chunk_text with the default arguments
chunk_tokens = 1100, overlap = 100, operating on the list of
whitespace-delimited words: `end = min(len(words), start + 1100)`,
`chunk_words = words[start:end]`, break when the window is empty or reaches
the end, else continue from `end - 100`. -/
def chunkTextLoop (words : List α) (start : Nat) : List (List α) :=
  if h : start < words.length then
    if hcw : ((words.drop start).take (min words.length (start + 1100) - start)).isEmpty then []
    else if he : words.length ≤ min words.length (start + 1100) then
      [(words.drop start).take (min words.length (start + 1100) - start)]
    else
      ((words.drop start).take (min words.length (start + 1100) - start)) ::
        chunkTextLoop words (min words.length (start + 1100) - 100)
  else []
termination_by words.length - start
decreasing_by
  have hmin : min words.length (start + 1100) = start + 1100 := by omega
  omega

/-- ingest_docs.chunk_text with default arguments, at the word level: the
Python function splits the text into whitespace-delimited words and joins
each window back with single spaces; chunks are represented here by their
word sequences. -/
def chunk_text (words : List α) : List (List α) := chunkTextLoop words 0

/-- ingest_docs.chunk_text at the string level: split the text on
whitespace, run the window loop, and join each window with single spaces,
keeping only nonempty stripped chunks (the source appends
`" ".join(chunk_words).strip()` only when it is truthy). -/
def chunk_text_str (text : Str) : List Str :=
  (chunkTextLoop (pySplitWs text) 0).filterMap
    (fun ws => let c := pyStrip (pyJoin [' '] ws); if c.isEmpty then none else some c)

/-- ingest_docs.summarize_snippet with the default limit 240. -/
def summarize_snippet (text : Str) : Str :=
  let squished := pyJoin [' '] (pySplitWs text)
  if squished.length ≤ 240 then squished
  else pyRStrip (squished.take 239) ++ ['…']

/-- A chunk record as stored in meta.json.  Fields read through dict.get in
the sources are Options; the chunk ordinal is read with a mandatory key
lookup (`chunk["chunk"]`) in ingest_docs and so is kept mandatory here. -/
structure ChunkRec where
  doc_path : Option Str
  shortname : Option Str
  chunk : Int
  text : Option Str
  snippet : Option Str
  tokens : Option Int
deriving DecidableEq

/-- ingest_docs.DocumentChunk. -/
structure DocumentChunk where
  doc_path : Str
  shortname : Str
  chunk : Int
  text : Str
  snippet : Str
  token_count : Int
deriving DecidableEq

/-- os.stat result for one source document: st_size and the float st_mtime. -/
structure FileStat where
  st_size : Int
  st_mtime : ℚ
deriving DecidableEq

/-- The per-file fingerprint record of meta.json (loosely typed JSON). -/
structure FileMeta where
  size : Option Int
  mtime : Option ℚ
deriving DecidableEq

/-- The persisted metadata artifact: per-file fingerprints and the ordered
chunk records. -/
structure Meta where
  files : List (Str × FileMeta)
  chunks : List ChunkRec
deriving DecidableEq

def chunkRecLe (a b : ChunkRec) : Prop := a.chunk ≤ b.chunk

instance : DecidableRel chunkRecLe := fun a b => inferInstanceAs (Decidable (a.chunk ≤ b.chunk))

/-- The restoration step of ingest_docs.reuse_chunks_if_possible for one
stored record. -/
def restore_chunk (path : Str) (c : ChunkRec) : DocumentChunk :=
  { doc_path := path
    shortname := c.shortname.getD (sanitize_shortname (pyStem path))
    chunk := c.chunk
    text := c.text.getD []
    snippet := c.snippet.getD []
    token_count := c.tokens.getD ((pySplitWs (c.text.getD [])).length : Int) }

/-- ingest_docs.reuse_chunks_if_possible: return the stored chunks sorted by
ordinal when the stored fingerprint matches the file's current
(st_size, int(st_mtime)), and None otherwise. -/
def reuse_chunks_if_possible (path : Str) (stat : FileStat) (existing : Meta) :
    Option (List DocumentChunk) :=
  match lookupAssoc existing.files path with
  | none => none
  | some fm =>
    if fm.size ≠ some stat.st_size then none
    else if truncInt (fm.mtime.getD 0) ≠ truncInt stat.st_mtime then none
    else
      let stored := existing.chunks.filter (fun c => c.doc_path = some path)
      if stored = [] then none
      else some ((List.insertionSort chunkRecLe stored).map (restore_chunk path))

/-- Python enumerate, with an explicit starting ordinal. -/
def enumFrom {α : Type} (i : Int) : List α → List (Int × α)
  | [] => []
  | x :: rest => (i, x) :: enumFrom (i + 1) rest

/-- The recompute branch of ingest_docs.build_chunks for one document:
extract the text (passed in as `raw_text`), chunk it, and build fresh
DocumentChunk records; sections that strip to empty are skipped but still
consume an enumerate ordinal. -/
def fresh_doc_chunks (path : Str) (raw_text : Str) : List DocumentChunk :=
  let sections := chunk_text_str raw_text
  let shortname := sanitize_shortname (pyStem path)
  (enumFrom 0 sections).filterMap (fun p =>
    if (pyStrip p.2).isEmpty then none
    else some
      { doc_path := path
        shortname := shortname
        chunk := p.1
        text := p.2
        snippet := summarize_snippet p.2
        token_count := ((pySplitWs p.2).length : Int) })

/-- The per-document body of ingest_docs.build_chunks: reuse the stored
chunks when the fingerprint is unchanged, else recompute them from the
freshly extracted text. -/
def build_chunks_for (path : Str) (stat : FileStat) (raw_text : Str) (existing : Meta) :
    List DocumentChunk :=
  match reuse_chunks_if_possible path stat existing with
  | some reused => reused
  | none => fresh_doc_chunks path raw_text

/-- ingest_docs.build_chunks over the sorted document list; each document is
given by its path, its stat result and its extracted text. -/
def build_chunks (docs : List (Str × FileStat × Str)) (existing : Meta) : List DocumentChunk :=
  docs.flatMap (fun d => build_chunks_for d.1 d.2.1 d.2.2 existing)

/-! ## src/shc/rag.py -/

abbrev Vec := List ℚ

/-- Inner product of two embedding vectors. -/
def dot (a b : Vec) : ℚ := (List.zipWith (fun x y => x * y) a b).sum

/-- rag.Chunk: a chunk retrieved from the index, with its score. -/
structure Chunk where
  doc_path : Str
  shortname : Str
  chunk : Int
  text : Str
  snippet : Str
  score : ℚ
deriving DecidableEq

/-- Chunk.label: the citation label [shortname §(chunk+1)]. -/
def chunkLabel (c : Chunk) : Str :=
  str "[" ++ c.shortname ++ str " §" ++ intStr (c.chunk + 1) ++ str "]"

/-- The in-memory _IndexState after _STATE.ensure(): the loaded vectors
(None while the artifacts are missing), the cached chunk records, and a
flag recording that loading raised an exception (caught by
_ensure_ready). -/
structure IndexState where
  index : Option (List Vec)
  chunk_cache : List ChunkRec
  load_error : Bool

/-- rag._ensure_ready: False when loading raised, the index is missing, or
the chunk cache is empty. -/
def ensure_ready (st : IndexState) : Bool :=
  !st.load_error && st.index.isSome && !st.chunk_cache.isEmpty

/-- Materialization of one cached record into a Chunk, with the dict.get
defaults of _IndexState.as_chunk. -/
def chunkFromRec (r : ChunkRec) (score : ℚ) : Chunk :=
  { doc_path := r.doc_path.getD []
    shortname := r.shortname.getD (str "document")
    chunk := r.chunk
    text := r.text.getD []
    snippet := r.snippet.getD []
    score := score }

/-- rag._IndexState.as_chunk: None when the raw index is out of range,
else the materialized record. -/
def as_chunk (cache : List ChunkRec) (idx : Int) (score : ℚ) : Option Chunk :=
  if h : 0 ≤ idx ∧ idx < (cache.length : Int) then
    some (chunkFromRec (cache.get ⟨idx.toNat, by omega⟩) score)
  else none

/-- Stand-in value for the -FLT_MAX score faiss pads absent results with. -/
def PAD_SCORE : ℚ := -(2 ^ 127)

/-- Index/score pairs for every stored vector, in storage order. -/
def scoreAll (q : Vec) (base : Int) : List Vec → List (Int × ℚ)
  | [] => []
  | v :: rest => (base, dot q v) :: scoreAll q (base + 1) rest

def pairGe (a b : Int × ℚ) : Prop := b.2 ≤ a.2

instance : DecidableRel pairGe := fun a b => inferInstanceAs (Decidable (b.2 ≤ a.2))

instance : IsTotal (Int × ℚ) pairGe := ⟨fun a b => le_total b.2 a.2⟩

instance : IsTrans (Int × ℚ) pairGe := ⟨fun _ _ _ h1 h2 => le_trans h2 h1⟩

/-- Model of faiss.IndexFlatIP.search for a single query vector: exact
inner-product scores over all stored vectors, the best n in descending
order, padded with index -1 when fewer than n vectors exist. -/
def flatSearch (vs : List Vec) (q : Vec) (n : Nat) : List (Int × ℚ) :=
  let top := (List.insertionSort pairGe (scoreAll q 0 vs)).take n
  top ++ List.replicate (n - top.length) (-1, PAD_SCORE)

def scoreGe (a b : Chunk) : Prop := b.score ≤ a.score

instance : DecidableRel scoreGe := fun a b => inferInstanceAs (Decidable (b.score ≤ a.score))

instance : IsTotal Chunk scoreGe := ⟨fun a b => le_total b.score a.score⟩

instance : IsTrans Chunk scoreGe := ⟨fun _ _ _ h1 h2 => le_trans h2 h1⟩

/-- The per-chunk boost of rag._rerank: add 0.2 times the normalized
partial-ratio of the query against the first 1200 characters of the text.
The rapidfuzz metric (values in [0, 100]) is the parameter `pr`. -/
def boostChunk (pr : Str → Str → ℚ) (query : Str) (c : Chunk) : Chunk :=
  { c with score := c.score + 0.2 * (pr query (c.text.take 1200) / 100) }

/-- rag._rerank: rebuild every candidate with its fused score, then sort
descending by score (Python's stable sort with reverse=True). -/
def rerank (pr : Str → Str → ℚ) (query : Str) (chunks : List Chunk) : List Chunk :=
  List.insertionSort scoreGe (chunks.map (boostChunk pr query))

/-- rag.search: empty for a blank query or an unready index, else embed the
query, fetch min(max(k*2, k), len(chunk_cache)) raw candidates, materialize
the in-range ones, rerank, and keep the first k. -/
def search (st : IndexState) (embed : Str → Vec) (pr : Str → Str → ℚ)
    (query : Str) (k : Nat) : List Chunk :=
  if pyStrip query = [] then []
  else if ensure_ready st = false then []
  else
    let vector := embed query
    let top_k := min (max (k * 2) k) st.chunk_cache.length
    let raw := flatSearch (st.index.getD []) vector top_k
    let chunks := raw.filterMap (fun p => as_chunk st.chunk_cache p.1 p.2)
    (rerank pr query chunks).take k

/-- rag._STYLE_HINTS. -/
def STYLE_HINTS : List (Str × Str) :=
  [(str "concise", str "Respond with 3-6 short lines focused on actionable trading education."),
   (str "bullets", str "Respond with 2 short bullet points describing concrete risks."),
   (str "explainer",
    str "Respond with 8-12 short lines outlining thesis, entry, invalidation, risk, and traps.")]

/-- rag._build_prompt. -/
def build_prompt (query : Str) (chunks : List Chunk) (style : Str) : Str :=
  let hint := (lookupAssoc STYLE_HINTS style).getD
    ((lookupAssoc STYLE_HINTS (str "concise")).getD [])
  let context := pyJoin (str "\n\n") (chunks.map (fun c => chunkLabel c ++ str ": " ++ c.text))
  str "You are an elite trading coach for Slum House Capital. " ++
  str "Paraphrase insights from the provided context without quoting more than 90 continuous characters. " ++
  str "Use the citation labels exactly as provided when you reference a source. " ++
  hint ++ str "\n\n" ++
  str "Question: " ++ query ++ str "\n" ++
  str "Context:\n" ++ context ++ str "\n\n" ++
  str "Answer:"

/-- rag._synthesise: the provider chain.  `nem prompt` is the stripped
result of _call_nemotron (empty on any failure or timeout), `cfg` says
whether the OpenAI credential and client are available, and `oai prompt`
is the stripped result of _call_openai (empty on any failure). -/
def synthesise (nem : Str → Str) (cfg : Bool) (oai : Str → Str) (prompt : Str) : Str :=
  let n := nem prompt
  if n ≠ [] then n
  else if cfg then oai prompt
  else []

/-- rag citation record. -/
structure Citation where
  doc : Str
  shortname : Str
  chunk : Int
  label : Str
deriving DecidableEq

/-- Accumulating loop of rag._build_citations: keep the first chunk for
each label. -/
def build_citations_go (seen : List Str) : List Chunk → List Citation
  | [] => []
  | c :: rest =>
    let l := chunkLabel c
    if l ∈ seen then build_citations_go seen rest
    else
      { doc := pyPathName c.doc_path
        shortname := c.shortname
        chunk := c.chunk
        label := l } :: build_citations_go (l :: seen) rest

/-- rag._build_citations. -/
def build_citations (chunks : List Chunk) : List Citation := build_citations_go [] chunks

/-- rag._ensure_citations: append one " Sources: ..." suffix listing the
labels not already present as substrings of the text. -/
def ensure_citations (text : Str) (citations : List Citation) : Str :=
  let labels := citations.map (fun c => c.label)
  let missing := labels.filter (fun l => !(decide (l <:+: text)))
  if missing = [] then text
  else
    let suffix := str " Sources: " ++ pyJoin (str ", ") missing
    if '\n' ∈ text then text ++ str "\n" ++ suffix else text ++ str " " ++ suffix

/-- rag.compact_citation_labels. -/
def compact_citation_labels_go (seen : List Str) : List Citation → List Str
  | [] => []
  | c :: rest =>
    if c.label = [] ∨ c.label ∈ seen then compact_citation_labels_go seen rest
    else c.label :: compact_citation_labels_go (c.label :: seen) rest

def compact_citation_labels (citations : List Citation) : List Str :=
  compact_citation_labels_go [] citations

/-- rag.format_source_line. -/
def format_source_line (citations : List Citation) : Str :=
  let labels := compact_citation_labels citations
  if labels = [] then [] else str "Sources: " ++ pyJoin (str ", ") labels

/-- The dict returned by rag.answer. -/
structure AnswerResult where
  text : Str
  citations : List Citation
  chunks : List Chunk
deriving DecidableEq

/-- The literal sentinel {"text": "No strong match", "citations": [], "chunks": []}. -/
def no_strong_match : AnswerResult :=
  { text := str "No strong match", citations := [], chunks := [] }

/-- rag.answer. -/
def answer (st : IndexState) (embed : Str → Vec) (pr : Str → Str → ℚ)
    (nem : Str → Str) (cfg : Bool) (oai : Str → Str)
    (query : Str) (k : Nat) (style : Str) : AnswerResult :=
  let q := pyStrip query
  if q = [] then no_strong_match
  else
    let hits := search st embed pr q k
    if hits = [] then no_strong_match
    else
      let prompt := build_prompt q hits style
      let text := synthesise nem cfg oai prompt
      if text = [] then no_strong_match
      else
        let citations := build_citations hits
        let cleaned := pyStrip text
        let cleaned2 := if citations = [] then cleaned else ensure_citations cleaned citations
        { text := cleaned2, citations := citations, chunks := hits }

/-- Python float 0.5, given as an explicitly reduced rational. -/
def halfQ : ℚ := ⟨1, 2, by decide, by decide⟩

/-- Modelled from the claim wording for sanitize_shortname: collapse every
run of repeated underscores to a single underscore. -/
def collapseUnd : Str → Str
  | [] => []
  | [c] => [c]
  | a :: b :: rest =>
    if a = '_' ∧ b = '_' then collapseUnd (b :: rest) else a :: collapseUnd (b :: rest)

/-- Modelled from the claim wording for sanitize_shortname: the stem with
every non-alphanumeric character replaced by an underscore and runs of
repeated underscores collapsed to a single underscore, defaulting to
"document" exactly when that result is empty. -/
def claimSanitize (stem : Str) : Str :=
  let replaced := stem.map (fun ch => if ch.isAlphanum then ch else '_')
  let collapsed := collapseUnd replaced
  if collapsed = [] then str "document" else collapsed

/-- The maximal runs of non-underscore characters of a string, in order:
collapsing underscore runs and dropping boundary underscores leaves exactly
these runs joined by single underscores. -/
def undWords : Str → List Str
  | [] => []
  | [c] => if c = '_' then [] else [[c]]
  | c :: d :: t =>
    if c = '_' then undWords (d :: t)
    else if d = '_' then [c] :: undWords (d :: t)
    else
      match undWords (d :: t) with
      | [] => [[c]]
      | w :: ws => (c :: w) :: ws

/-- Modelled from the amended claim for sanitize_shortname: replace every
non-alphanumeric character of the stripped stem with an underscore, keep
the maximal runs of the remaining characters joined by single underscores
(collapsing repeated underscores and dropping leading and trailing ones),
and default to "document" when the stem strips to empty or nothing
remains. -/
def amendedSanitize (stem0 : Str) : Str :=
  let stem1 := pyStrip stem0
  let stem := if stem1 = [] then str "document" else stem1
  let replaced := stem.map (fun ch => if ch.isAlphanum then ch else '_')
  let ws := undWords replaced
  if ws = [] then str "document" else pyJoin ['_'] ws

/-! ## Helper lemmas -/

theorem strInTrans {a b c : Str} (h1 : a <:+: b) (h2 : b <:+: c) : a <:+: c := by
  obtain ⟨s, t, rfl⟩ := h1
  obtain ⟨u, v, rfl⟩ := h2
  exact ⟨u ++ s, t ++ v, by simp⟩

theorem strInOfMemJoin (sep : Str) (a : Str) : ∀ l : List Str, a ∈ l → a <:+: pyJoin sep l := by
  intro l
  induction l with
  | nil => intro h; cases h
  | cons x rest ih =>
    intro hmem
    cases rest with
    | nil =>
      have hx : a = x := by simpa using hmem
      subst hx
      exact ⟨[], [], by simp [pyJoin]⟩
    | cons y t =>
      rcases List.mem_cons.mp hmem with hx | hrest
      · subst hx
        exact ⟨[], sep ++ pyJoin sep (y :: t), by simp [pyJoin]⟩
      · have h1 : a <:+: pyJoin sep (y :: t) := ih hrest
        have h2 : pyJoin sep (y :: t) <:+: pyJoin sep (x :: y :: t) :=
          ⟨x ++ sep, [], by simp [pyJoin]⟩
        exact strInTrans h1 h2

theorem scoreAllBounds (q : Vec) :
    ∀ (vs : List Vec) (base : Int), ∀ p ∈ scoreAll q base vs,
      base ≤ p.1 ∧ p.1 < base + vs.length := by
  intro vs
  induction vs with
  | nil => intro base p hp; cases hp
  | cons v rest ih =>
    intro base p hp
    rcases List.mem_cons.mp hp with h | h
    · subst h; simp
    · have := ih (base + 1) p h
      constructor
      · omega
      · have hl : ((v :: rest).length : Int) = (rest.length : Int) + 1 := by
          simp
        omega

/-! ## Claims -/

/-- Claim C1: for every k and style, answer with an empty (blank) query, or
with a query whose (stripped) form yields zero search hits — in particular
on an empty corpus — returns exactly the literal sentinel
{"text": "No strong match", "citations": [], "chunks": []}. -/
theorem claim_C1 (st : IndexState) (embed : Str → Vec) (pr : Str → Str → ℚ)
    (nem : Str → Str) (cfg : Bool) (oai : Str → Str)
    (query : Str) (k : Nat) (style : Str)
    (h : pyStrip query = [] ∨ search st embed pr (pyStrip query) k = []) :
    answer st embed pr nem cfg oai query k style =
      { text := str "No strong match", citations := [], chunks := [] } := by
  have hs : no_strong_match = { text := str "No strong match", citations := [], chunks := [] } := rfl
  unfold answer
  rcases h with h | h
  · simp [h, hs]
  · by_cases hq : pyStrip query = []
    · simp [hq, hs]
    · simp [hq, h, hs]

theorem claim_C1_witness :
    (pyStrip (str " ") = [] ∨
      search ⟨none, [], false⟩ (fun _ => []) (fun _ _ => 0) (pyStrip (str " ")) 3 = []) ∧
    answer ⟨none, [], false⟩ (fun _ => []) (fun _ _ => 0) (fun _ => []) false (fun _ => [])
        (str " ") 3 (str "concise") =
      { text := str "No strong match", citations := [], chunks := [] } :=
  ⟨Or.inl (by decide),
   claim_C1 ⟨none, [], false⟩ (fun _ => []) (fun _ _ => 0) (fun _ => []) false (fun _ => [])
     (str " ") 3 (str "concise") (Or.inl (by decide))⟩

/-- Claim C7: search with an empty query returns [] for every k, and search
on a state whose index holds zero chunks, or whose artifacts are missing
(index = none) or unreadable (load_error), returns [] — the model is total,
so no exception reaches the caller. -/
theorem claim_C7 (st : IndexState) (embed : Str → Vec) (pr : Str → Str → ℚ)
    (query : Str) (k : Nat) :
    search st embed pr [] k = [] ∧
    (st.load_error = true ∨ st.index = none ∨ st.chunk_cache = [] →
      search st embed pr query k = []) := by
  constructor
  · simp [search, pyStrip, pyLStrip, pyRStrip]
  · intro h
    have hr : ensure_ready st = false := by
      rcases h with h | h | h <;> simp [ensure_ready, h]
    by_cases hq : pyStrip query = []
    · simp [search, hq]
    · simp [search, hq, hr]

theorem claim_C7_witness :
    search ⟨none, [], false⟩ (fun _ => []) (fun _ _ => 0) (str "query") 5 = [] ∧
    search ⟨none, [], false⟩ (fun _ => []) (fun _ _ => 0) [] 5 = [] :=
  ⟨(claim_C7 ⟨none, [], false⟩ (fun _ => []) (fun _ _ => 0) (str "query") 5).2
      (Or.inr (Or.inl rfl)),
   (claim_C7 ⟨none, [], false⟩ (fun _ => []) (fun _ _ => 0) (str "query") 5).1⟩

/-- Claim C10: as_chunk materializes a chunk exactly when the raw index is
in range of the cached record list; out-of-range pairs (including the -1
padding the flat index emits when fewer than the requested number of
vectors exist) are silently dropped by the filterMap in search, every
materialized chunk comes from a cached record, and every pair the flat
scan emits carries either a valid index or -1. -/
theorem claim_C10 (cache : List ChunkRec) (idx : Int) (score : ℚ)
    (raw : List (Int × ℚ)) (vs : List Vec) (q : Vec) (n : Nat) :
    ((as_chunk cache idx score).isSome = true ↔ 0 ≤ idx ∧ idx < (cache.length : Int)) ∧
    (raw.filterMap (fun p => as_chunk cache p.1 p.2)).length =
      (raw.filter (fun p => decide (0 ≤ p.1 ∧ p.1 < (cache.length : Int)))).length ∧
    (∀ c ∈ raw.filterMap (fun p => as_chunk cache p.1 p.2),
      ∃ r ∈ cache, ∃ s : ℚ, c = chunkFromRec r s) ∧
    (∀ p ∈ flatSearch vs q n, (0 ≤ p.1 ∧ p.1 < (vs.length : Int)) ∨ p.1 = -1) := by
  have hpos : ∀ (i : Int) (s : ℚ) (h : 0 ≤ i ∧ i < (cache.length : Int)),
      as_chunk cache i s = some (chunkFromRec (cache.get ⟨i.toNat, by omega⟩) s) :=
    fun i s h => dif_pos h
  have hneg : ∀ (i : Int) (s : ℚ), ¬(0 ≤ i ∧ i < (cache.length : Int)) →
      as_chunk cache i s = none :=
    fun i s h => dif_neg h
  refine ⟨?_, ?_, ?_, ?_⟩
  · by_cases h : 0 ≤ idx ∧ idx < (cache.length : Int)
    · rw [hpos idx score h]
      simp [h]
    · rw [hneg idx score h]
      simp [h]
  · induction raw with
    | nil => simp
    | cons p t ih =>
      by_cases hc : 0 ≤ p.1 ∧ p.1 < (cache.length : Int)
      · simp [List.filterMap_cons, List.filter_cons, hpos p.1 p.2 hc, hc, ih]
      · simp [List.filterMap_cons, List.filter_cons, hneg p.1 p.2 hc, hc, ih]
  · intro c hc
    rw [List.mem_filterMap] at hc
    obtain ⟨p, hp, he⟩ := hc
    by_cases hcond : 0 ≤ p.1 ∧ p.1 < (cache.length : Int)
    · rw [hpos p.1 p.2 hcond] at he
      refine ⟨cache.get ⟨p.1.toNat, by omega⟩, List.get_mem _ _ _, p.2, ?_⟩
      exact (Option.some_injective _ he).symm
    · rw [hneg p.1 p.2 hcond] at he
      cases he
  · intro p hp
    unfold flatSearch at hp
    rcases List.mem_append.mp hp with h | h
    · have h2 : p ∈ List.insertionSort pairGe (scoreAll q 0 vs) :=
        (List.take_sublist _ _).mem h
      have h3 : p ∈ scoreAll q 0 vs := (List.perm_insertionSort pairGe _).mem_iff.mp h2
      have := scoreAllBounds q vs 0 p h3
      left
      omega
    · right
      have := List.eq_of_mem_replicate h
      rw [this]

theorem claim_C10_witness :
    (((-1 : Int), PAD_SCORE) ∈ flatSearch [] [] 1) ∧
    ((0 ≤ (-1 : Int) ∧ (-1 : Int) < (([] : List Vec).length : Int)) ∨ (-1 : Int) = -1) := by
  have hm : ((-1 : Int), PAD_SCORE) ∈ flatSearch [] [] 1 := by
    rw [show flatSearch [] [] 1 = [((-1 : Int), PAD_SCORE)] from rfl]
    exact List.mem_singleton_self _
  exact ⟨hm, (claim_C10 [] 0 0 [] [] [] 1).2.2.2 ((-1 : Int), PAD_SCORE) hm⟩

/-- Claim C2: for every non-empty (stripped) query and every k, search
returns at most k results with scores non-increasing in sequence order,
and, whenever the index is ready, it requests exactly
top_n = min(max(2k, k), corpus_size) raw candidates from the vector
index. -/
theorem claim_C2 (st : IndexState) (embed : Str → Vec) (pr : Str → Str → ℚ)
    (query : Str) (k : Nat) (hq : pyStrip query ≠ []) :
    (search st embed pr query k).length ≤ k ∧
    List.Sorted scoreGe (search st embed pr query k) ∧
    (ensure_ready st = true →
      search st embed pr query k =
        (rerank pr query
          ((flatSearch (st.index.getD []) (embed query)
              (min (max (k * 2) k) st.chunk_cache.length)).filterMap
            (fun p => as_chunk st.chunk_cache p.1 p.2))).take k) := by
  cases hr : ensure_ready st with
  | false =>
    have hempty : search st embed pr query k = [] := by
      simp [search, hq, hr]
    refine ⟨by simp [hempty], by simp [hempty, List.Sorted], ?_⟩
    intro h
    cases h
  | true =>
    have hsearch : search st embed pr query k =
        (rerank pr query
          ((flatSearch (st.index.getD []) (embed query)
              (min (max (k * 2) k) st.chunk_cache.length)).filterMap
            (fun p => as_chunk st.chunk_cache p.1 p.2))).take k := by
      simp [search, hq, hr]
    refine ⟨?_, ?_, fun _ => hsearch⟩
    · rw [hsearch]
      exact List.length_take_le _ _
    · rw [hsearch]
      exact List.Pairwise.sublist (List.take_sublist _ _)
        (List.sorted_insertionSort scoreGe _)

theorem claim_C2_witness :
    (search ⟨none, [], false⟩ (fun _ => []) (fun _ _ => 0) (str "q") 1).length ≤ 1 ∧
    List.Sorted scoreGe (search ⟨none, [], false⟩ (fun _ => []) (fun _ _ => 0) (str "q") 1) ∧
    (ensure_ready ⟨none, [], false⟩ = true →
      search ⟨none, [], false⟩ (fun _ => []) (fun _ _ => 0) (str "q") 1 =
        (rerank (fun _ _ => 0) (str "q")
          ((flatSearch ((none : Option (List Vec)).getD []) ((fun _ => []) (str "q"))
              (min (max (1 * 2) 1) (IndexState.chunk_cache ⟨none, [], false⟩).length)).filterMap
            (fun p => as_chunk (IndexState.chunk_cache ⟨none, [], false⟩) p.1 p.2))).take 1) :=
  claim_C2 ⟨none, [], false⟩ (fun _ => []) (fun _ _ => 0) (str "q") 1 (by decide)

/-- Claim C3: rerank rebuilds each raw candidate with fused score equal to
its vector score plus 0.2 times the normalized lexical score (the metric
value divided by 100, in [0,1] whenever the metric stays in [0,100])
computed against the first 1200 characters of the chunk text, the result
is the boosted candidates re-sorted descending by fused score, and search
returns that reranked list truncated to the first k. -/
theorem claim_C3 (st : IndexState) (embed : Str → Vec) (pr : Str → Str → ℚ)
    (query : Str) (chunks : List Chunk) (k : Nat)
    (hpr : ∀ a b, 0 ≤ pr a b ∧ pr a b ≤ 100) :
    (rerank pr query chunks).Perm (chunks.map (boostChunk pr query)) ∧
    (∀ c ∈ chunks,
      (boostChunk pr query c).score =
        c.score + 0.2 * (pr query (c.text.take 1200) / 100) ∧
      0 ≤ pr query (c.text.take 1200) / 100 ∧
      pr query (c.text.take 1200) / 100 ≤ 1) ∧
    List.Sorted scoreGe (rerank pr query chunks) ∧
    (pyStrip query ≠ [] → ensure_ready st = true →
      search st embed pr query k =
        (rerank pr query
          ((flatSearch (st.index.getD []) (embed query)
              (min (max (k * 2) k) st.chunk_cache.length)).filterMap
            (fun p => as_chunk st.chunk_cache p.1 p.2))).take k) := by
  refine ⟨List.perm_insertionSort scoreGe _, ?_, List.sorted_insertionSort scoreGe _, ?_⟩
  · intro c _
    have h := hpr query (c.text.take 1200)
    refine ⟨rfl, ?_, ?_⟩
    · exact div_nonneg h.1 (by norm_num)
    · rw [div_le_one (by norm_num)]
      exact h.2
  · intro hq hr
    simp [search, hq, hr]

theorem claim_C3_witness :
    (rerank (fun _ _ => 50) (str "q") []).Perm
      (([] : List Chunk).map (boostChunk (fun _ _ => 50) (str "q"))) ∧
    (∀ c ∈ ([] : List Chunk),
      (boostChunk (fun _ _ => 50) (str "q") c).score =
        c.score + 0.2 * ((fun (_ _ : Str) => (50 : ℚ)) (str "q") (c.text.take 1200) / 100) ∧
      0 ≤ (fun (_ _ : Str) => (50 : ℚ)) (str "q") (c.text.take 1200) / 100 ∧
      (fun (_ _ : Str) => (50 : ℚ)) (str "q") (c.text.take 1200) / 100 ≤ 1) ∧
    List.Sorted scoreGe (rerank (fun _ _ => 50) (str "q") []) ∧
    (pyStrip (str "q") ≠ [] → ensure_ready ⟨none, [], false⟩ = true →
      search ⟨none, [], false⟩ (fun _ => []) (fun _ _ => 50) (str "q") 2 =
        (rerank (fun _ _ => 50) (str "q")
          ((flatSearch ((none : Option (List Vec)).getD []) ((fun _ => []) (str "q"))
              (min (max (2 * 2) 2) (IndexState.chunk_cache ⟨none, [], false⟩).length)).filterMap
            (fun p => as_chunk (IndexState.chunk_cache ⟨none, [], false⟩) p.1 p.2))).take 2) :=
  claim_C3 ⟨none, [], false⟩ (fun _ => []) (fun _ _ => 50) (str "q") [] 2
    (fun _ _ => by norm_num)

theorem strInOfPre {a b c : Str} (h1 : a <:+: b) (h2 : b <+: c) : a <:+: c := by
  obtain ⟨s, t, rfl⟩ := h1
  obtain ⟨u, rfl⟩ := h2
  exact ⟨s, t ++ u, by simp⟩

/-- Claim C8: ensure_citations always returns a string beginning with the
input text; when every citation label already occurs as a substring of the
text, the text is returned unchanged; every citation label is a substring
of the result; and when some label is missing a "Sources:" marker is
appended — the text is never rejected or rewritten. -/
theorem claim_C8 (text : Str) (citations : List Citation) :
    text <+: ensure_citations text citations ∧
    ((∀ c ∈ citations, c.label <:+: text) → ensure_citations text citations = text) ∧
    (∀ c ∈ citations, c.label <:+: ensure_citations text citations) ∧
    ((∃ c ∈ citations, ¬ c.label <:+: text) →
      str "Sources: " <:+: ensure_citations text citations) := by
  by_cases hm : (citations.map (fun c => c.label)).filter (fun l => !(decide (l <:+: text))) = []
  · have he : ensure_citations text citations = text := by
      simp only [ensure_citations]
      rw [if_pos hm]
    have hpresent : ∀ c ∈ citations, c.label <:+: text := by
      intro c hc
      have h := List.filter_eq_nil_iff.mp hm c.label (List.mem_map_of_mem _ hc)
      simpa using h
    refine ⟨?_, fun _ => he, ?_, ?_⟩
    · rw [he]
    · intro c hc
      rw [he]
      exact hpresent c hc
    · rintro ⟨c, hc, hnot⟩
      exact absurd (hpresent c hc) hnot
  · have he : ensure_citations text citations =
        if '\n' ∈ text then
          text ++ str "\n" ++
            (str " Sources: " ++
              pyJoin (str ", ")
                ((citations.map (fun c => c.label)).filter (fun l => !(decide (l <:+: text)))))
        else
          text ++ str " " ++
            (str " Sources: " ++
              pyJoin (str ", ")
                ((citations.map (fun c => c.label)).filter (fun l => !(decide (l <:+: text))))) := by
      simp only [ensure_citations]
      rw [if_neg hm]
    have hpre2 : ∀ a b c : Str, a <+: (a ++ b) ++ c := fun a b c => ⟨b ++ c, by simp⟩
    have hsufl : ∀ a b c : Str, c <:+: a ++ (b ++ c) := fun a b c => ⟨a ++ b, [], by simp⟩
    have hpre : text <+: ensure_citations text citations := by
      rw [he]
      split
      · exact hpre2 _ _ _
      · exact hpre2 _ _ _
    have hjoin :
        pyJoin (str ", ")
            ((citations.map (fun c => c.label)).filter (fun l => !(decide (l <:+: text)))) <:+:
          ensure_citations text citations := by
      rw [he]
      split
      · exact hsufl _ _ _
      · exact hsufl _ _ _
    refine ⟨hpre, ?_, ?_, ?_⟩
    · intro hall
      exfalso
      obtain ⟨l, hl⟩ := List.exists_mem_of_ne_nil _ hm
      rw [List.mem_filter] at hl
      obtain ⟨hmem, hdec⟩ := hl
      rw [List.mem_map] at hmem
      obtain ⟨c, hc, rfl⟩ := hmem
      have hin := hall c hc
      simp [hin] at hdec
    · intro c hc
      by_cases hd : c.label <:+: text
      · exact strInOfPre hd hpre
      · have hmem : c.label ∈
            (citations.map (fun c => c.label)).filter (fun l => !(decide (l <:+: text))) := by
          rw [List.mem_filter]
          exact ⟨List.mem_map_of_mem _ hc, by simp [hd]⟩
        exact strInTrans (strInOfMemJoin _ _ _ hmem) hjoin
    · intro _
      rw [he]
      set j := pyJoin (str ", ")
          ((citations.map (fun c => c.label)).filter (fun l => !(decide (l <:+: text)))) with hj
      have hsrc : ∀ pre : Str, str "Sources: " <:+: pre ++ (str " Sources: " ++ j) := by
        intro pre
        refine ⟨pre ++ [' '], j, ?_⟩
        rw [show str " Sources: " = [' '] ++ str "Sources: " from rfl]
        simp
      split
      · exact hsrc _
      · exact hsrc _

theorem claim_C8_witness :
    (str "body") <+:
      ensure_citations (str "body") [⟨str "d", str "s", 0, str "[s §1]"⟩] ∧
    (str "[s §1]") <:+:
      ensure_citations (str "body") [⟨str "d", str "s", 0, str "[s §1]"⟩] := by
  refine ⟨(claim_C8 (str "body") [⟨str "d", str "s", 0, str "[s §1]"⟩]).1, ?_⟩
  exact (claim_C8 (str "body") [⟨str "d", str "s", 0, str "[s §1]"⟩]).2.2.1
    ⟨str "d", str "s", 0, str "[s §1]"⟩ (List.mem_singleton_self _)

/-- Claim C6 (amended): when the query has hits and every generation
provider fails — the local provider returns empty and the hosted fallback
is unconfigured or returns empty — the provider chain _synthesise returns
empty text, and answer maps that empty text to the sentinel
{"text": "No strong match", "citations": [], "chunks": []} rather than
returning the empty text itself. -/
theorem claim_C6_amended (st : IndexState) (embed : Str → Vec) (pr : Str → Str → ℚ)
    (nem : Str → Str) (cfg : Bool) (oai : Str → Str)
    (query : Str) (k : Nat) (style : Str)
    (hhits : search st embed pr (pyStrip query) k ≠ [])
    (hnem : nem (build_prompt (pyStrip query) (search st embed pr (pyStrip query) k) style) = [])
    (hoai : cfg = false ∨
      oai (build_prompt (pyStrip query) (search st embed pr (pyStrip query) k) style) = []) :
    synthesise nem cfg oai
        (build_prompt (pyStrip query) (search st embed pr (pyStrip query) k) style) = [] ∧
    answer st embed pr nem cfg oai query k style = no_strong_match := by
  have hq : pyStrip query ≠ [] := by
    intro h
    apply hhits
    rw [h]
    simp [search, pyStrip, pyLStrip, pyRStrip]
  have hsyn : synthesise nem cfg oai
      (build_prompt (pyStrip query) (search st embed pr (pyStrip query) k) style) = [] := by
    simp only [synthesise]
    rw [hnem]
    simp only [ne_eq, not_true_eq_false, if_false]
    rcases hoai with h | h
    · simp [h]
    · cases cfg <;> simp [h]
  refine ⟨hsyn, ?_⟩
  simp [answer, hq, hhits, hsyn]

/-- Claim C6 (counterexample): on a one-chunk index with a query that has a
hit and with every provider failing, answer returns the "No strong match"
sentinel, whose text is not empty — so answer does not return empty
text. -/
theorem claim_C6_counterexample :
    search ⟨some [[(1 : ℚ)]],
        [⟨some (str "d"), some (str "s"), 0, some (str "t"), some (str "t"), some 1⟩], false⟩
        (fun _ => [(1 : ℚ)]) (fun _ _ => 0) (pyStrip (str "q")) 1 ≠ [] ∧
    answer ⟨some [[(1 : ℚ)]],
        [⟨some (str "d"), some (str "s"), 0, some (str "t"), some (str "t"), some 1⟩], false⟩
        (fun _ => [(1 : ℚ)]) (fun _ _ => 0) (fun _ => []) false (fun _ => [])
        (str "q") 1 (str "concise") = no_strong_match ∧
    (answer ⟨some [[(1 : ℚ)]],
        [⟨some (str "d"), some (str "s"), 0, some (str "t"), some (str "t"), some 1⟩], false⟩
        (fun _ => [(1 : ℚ)]) (fun _ _ => 0) (fun _ => []) false (fun _ => [])
        (str "q") 1 (str "concise")).text ≠ [] := by
  refine ⟨by decide, by decide, by decide⟩

/-- Claim C5 (amended): whenever the stored fingerprint differs from the
file's current one as the code compares them — the stored size differs
from st_size, or the stored mtime and the current st_mtime truncate to
different whole seconds, or no fingerprint is stored — reuse returns None
and all chunk records are recomputed from the freshly extracted text, none
reused.  (Sub-second mtime changes that keep the truncated value equal do
reuse the stored chunks; see the counterexample.) -/
theorem claim_C5_amended (path : Str) (stat : FileStat) (raw_text : Str) (existing : Meta)
    (h : ∀ fm, lookupAssoc existing.files path = some fm →
      fm.size ≠ some stat.st_size ∨ truncInt (fm.mtime.getD 0) ≠ truncInt stat.st_mtime) :
    reuse_chunks_if_possible path stat existing = none ∧
    build_chunks_for path stat raw_text existing = fresh_doc_chunks path raw_text := by
  have hr : reuse_chunks_if_possible path stat existing = none := by
    cases hl : lookupAssoc existing.files path with
    | none => simp [reuse_chunks_if_possible, hl]
    | some fm =>
      rcases h fm hl with hs | hm
      · simp [reuse_chunks_if_possible, hl, hs]
      · by_cases hs2 : fm.size ≠ some stat.st_size
        · simp [reuse_chunks_if_possible, hl, hs2]
        · simp [reuse_chunks_if_possible, hl, hs2, hm]
  refine ⟨hr, ?_⟩
  unfold build_chunks_for
  rw [hr]

theorem claim_C5_witness :
    lookupAssoc (Meta.files ⟨[], []⟩) [] = none ∧
    build_chunks_for [] ⟨0, 0⟩ [] ⟨[], []⟩ = fresh_doc_chunks [] [] :=
  ⟨rfl, (claim_C5_amended [] ⟨0, 0⟩ [] ⟨[], []⟩ (fun _ h => nomatch h)).2⟩

/-- Claim C5 (counterexample): a document whose stored mtime is 0 and whose
current st_mtime is 0.5 has a changed modification time, yet because the
code compares int(mtime) values (0 = 0) it reuses the stored chunk records
instead of recomputing them from the freshly extracted text. -/
theorem claim_C5_counterexample :
    FileStat.st_mtime ⟨1, halfQ⟩ ≠ (0 : ℚ) ∧
    reuse_chunks_if_possible (str "p") ⟨1, halfQ⟩
        ⟨[(str "p", ⟨some 1, some 0⟩)],
         [⟨some (str "p"), some (str "s"), 0, some (str "old"), some (str "o"), some 1⟩]⟩ =
      some [⟨str "p", str "s", 0, str "old", str "o", 1⟩] ∧
    build_chunks_for (str "p") ⟨1, halfQ⟩ (str "new")
        ⟨[(str "p", ⟨some 1, some 0⟩)],
         [⟨some (str "p"), some (str "s"), 0, some (str "old"), some (str "o"), some 1⟩]⟩ =
      [⟨str "p", str "s", 0, str "old", str "o", 1⟩] ∧
    fresh_doc_chunks (str "p") (str "new") ≠ [⟨str "p", str "s", 0, str "old", str "o", 1⟩] := by
  have h1 : chunkTextLoop ([['n', 'e', 'w']] : List (List Char)) 0 = [[['n', 'e', 'w']]] := by
    rw [chunkTextLoop.eq_def]
    decide
  have h2 : fresh_doc_chunks (str "p") (str "new") =
      [⟨str "p", str "p", 0, str "new", str "new", 1⟩] := by
    unfold fresh_doc_chunks chunk_text_str
    rw [show pySplitWs (str "new") = [['n', 'e', 'w']] from by decide, h1]
    decide
  refine ⟨by decide, by decide, by decide, ?_⟩
  rw [h2]
  decide

theorem pySplitPNeNil (p : Char → Bool) (s : Str) : pySplitP p s ≠ [] := by
  cases s with
  | nil => simp [pySplitP]
  | cons c rest =>
    simp only [pySplitP]
    cases h : pySplitP p rest with
    | nil => simp
    | cons q qs => by_cases hc : p c <;> simp [hc]

theorem pySplitPCons (p : Char → Bool) (c : Char) (rest : Str) :
    pySplitP p (c :: rest) =
      match pySplitP p rest with
      | [] => [[]]
      | q :: qs => if p c then [] :: q :: qs else (c :: q) :: qs := rfl

theorem splitFilterEqUndWords (s : Str) :
    (pySplitP (fun c => c = '_') s).filter (fun w => w ≠ []) = undWords s := by
  induction s with
  | nil => simp [pySplitP, undWords]
  | cons c t ih =>
    cases t with
    | nil =>
      by_cases hc : c = '_'
      · simp [pySplitP, undWords, hc]
      · simp [pySplitP, undWords, hc]
    | cons d t2 =>
      obtain ⟨p, ps, hps⟩ : ∃ p ps, pySplitP (fun c => c = '_') (d :: t2) = p :: ps := by
        cases h : pySplitP (fun c => c = '_') (d :: t2) with
        | nil => exact absurd h (pySplitPNeNil _ _)
        | cons p ps => exact ⟨p, ps, rfl⟩
      rw [hps] at ih
      by_cases hc : c = '_'
      · have hl : pySplitP (fun c => c = '_') (c :: d :: t2) = [] :: p :: ps := by
          rw [pySplitPCons, hps]
          simp [hc]
        rw [hl]
        have hr : undWords (c :: d :: t2) = undWords (d :: t2) := by
          rw [undWords]
          simp [hc]
        rw [hr, ← ih]
        simp
      · have hl : pySplitP (fun c => c = '_') (c :: d :: t2) = (c :: p) :: ps := by
          rw [pySplitPCons, hps]
          simp [hc]
        rw [hl]
        by_cases hd : d = '_'
        · obtain ⟨q, qs, hq⟩ : ∃ q qs, pySplitP (fun c => c = '_') t2 = q :: qs := by
            cases h : pySplitP (fun c => c = '_') t2 with
            | nil => exact absurd h (pySplitPNeNil _ _)
            | cons q qs => exact ⟨q, qs, rfl⟩
          have hps2 : pySplitP (fun c => c = '_') (d :: t2) = [] :: q :: qs := by
            rw [pySplitPCons, hq]
            simp [hd]
          rw [hps2] at hps
          injection hps with hp1 hp2
          subst hp1
          subst hp2
          have hr : undWords (c :: d :: t2) = [c] :: undWords (d :: t2) := by
            rw [undWords]
            simp [hc, hd]
          rw [hr, ← ih]
          simp
        · obtain ⟨q, qs, hq⟩ : ∃ q qs, pySplitP (fun c => c = '_') t2 = q :: qs := by
            cases h : pySplitP (fun c => c = '_') t2 with
            | nil => exact absurd h (pySplitPNeNil _ _)
            | cons q qs => exact ⟨q, qs, rfl⟩
          have hps2 : pySplitP (fun c => c = '_') (d :: t2) = (d :: q) :: qs := by
            rw [pySplitPCons, hq]
            simp [hd]
          rw [hps2] at hps
          injection hps with hp1 hp2
          subst hp1
          subst hp2
          have hne : (d :: q) ≠ ([] : Str) := by simp
          have hih : (d :: q) :: List.filter (fun w => decide (w ≠ [])) qs =
              undWords (d :: t2) := by
            rw [← ih]
            simp
          have hr : undWords (c :: d :: t2) = (c :: d :: q) :: List.filter (fun w => decide (w ≠ [])) qs := by
            rw [undWords]
            simp only [hc, hd, if_false, ite_false]
            rw [← hih]
          rw [hr]
          simp

theorem undWordsNeNil (s : Str) : ∀ w ∈ undWords s, w ≠ [] := by
  intro w hw
  rw [← splitFilterEqUndWords] at hw
  rw [List.mem_filter] at hw
  simpa using hw.2

theorem pyJoinUndNilIff (ws : List Str) (hws : ∀ w ∈ ws, w ≠ []) :
    (pyJoin ['_'] ws = [] ↔ ws = []) := by
  cases ws with
  | nil => simp [pyJoin]
  | cons x rest =>
    cases rest with
    | nil =>
      simp only [pyJoin]
      constructor
      · intro h
        exact absurd h (hws x (List.mem_singleton_self x))
      · intro h
        exact nomatch h
    | cons y t => simp [pyJoin]

/-- Claim C9 (counterexample): for the stem "!a" the code yields "a" — the
split/filter/join also drops the leading underscore — while the claimed
replace-and-collapse description yields "_a". -/
theorem claim_C9_counterexample :
    sanitize_shortname (str "!a") = str "a" ∧
    claimSanitize (str "!a") = str "_a" ∧
    sanitize_shortname (str "!a") ≠ claimSanitize (str "!a") := by
  refine ⟨by decide, by decide, by decide⟩

/-- Claim C9 (amended): sanitize_shortname equals the stripped stem with
every non-alphanumeric character replaced by an underscore, runs of
repeated underscores collapsed to a single underscore AND leading and
trailing underscores dropped (equivalently, the maximal alphanumeric runs
joined by single underscores), defaulting to "document" when the stripped
stem is empty or no alphanumeric character remains. -/
theorem claim_C9_amended (stem : Str) : sanitize_shortname stem = amendedSanitize stem := by
  simp only [sanitize_shortname, amendedSanitize]
  rw [splitFilterEqUndWords]
  by_cases hw : undWords
      ((if pyStrip stem = [] then str "document" else pyStrip stem).map
        (fun ch => if ch.isAlphanum then ch else '_')) = []
  · rw [if_pos hw, if_pos ((pyJoinUndNilIff _ (undWordsNeNil _)).mpr hw)]
  · rw [if_neg hw, if_neg (fun hj => hw ((pyJoinUndNilIff _ (undWordsNeNil _)).mp hj))]

theorem chunkTextLoopEqn {α : Type} (words : List α) (start : Nat) (h : start < words.length) :
    chunkTextLoop words start =
      if words.length ≤ start + 1100 then [(words.drop start).take 1100]
      else ((words.drop start).take 1100) :: chunkTextLoop words (start + 1000) := by
  have htake : (words.drop start).take (min words.length (start + 1100) - start)
      = (words.drop start).take 1100 := by
    rw [List.take_eq_take]
    simp only [List.length_drop]
    omega
  have hne : ¬ ((words.drop start).take 1100).isEmpty = true := by
    intro hE
    rw [List.isEmpty_iff] at hE
    have := congrArg List.length hE
    simp only [List.length_take, List.length_drop, List.length_nil] at this
    omega
  by_cases hle : words.length ≤ start + 1100
  · rw [if_pos hle, chunkTextLoop.eq_def, dif_pos h, htake, dif_neg hne,
      dif_pos (show words.length ≤ min words.length (start + 1100) by omega)]
  · rw [if_neg hle, chunkTextLoop.eq_def, dif_pos h, htake, dif_neg hne,
      dif_neg (show ¬ words.length ≤ min words.length (start + 1100) by omega),
      show min words.length (start + 1100) - 100 = start + 1000 by omega]

theorem chunkTextLoopHead {α : Type} (words : List α) (start : Nat) (h : start < words.length) :
    ∃ t, chunkTextLoop words start = ((words.drop start).take 1100) :: t := by
  rw [chunkTextLoopEqn words start h]
  by_cases hle : words.length ≤ start + 1100
  · rw [if_pos hle]
    exact ⟨[], rfl⟩
  · rw [if_neg hle]
    exact ⟨_, rfl⟩

theorem dropDropEq {α : Type} (l : List α) (n m k : Nat) (h : n + m = k) :
    (l.drop n).drop m = l.drop k := by
  subst h
  rw [List.drop_drop]

theorem chunkTextLoopProps {α : Type} (words : List α) (start : Nat) (h : start < words.length) :
    (∀ i, i < (chunkTextLoop words start).length →
        (chunkTextLoop words start).get? i = some ((words.drop (start + 1000 * i)).take 1100)) ∧
    (∀ w ∈ words.drop start, ∃ c ∈ chunkTextLoop words start, w ∈ c) ∧
    List.Chain' (fun a b => a.drop 1000 = b.take 100) (chunkTextLoop words start) ∧
    (∀ i, i + 1 < (chunkTextLoop words start).length → start + 1000 * i + 1100 < words.length) := by
  by_cases hle : words.length ≤ start + 1100
  · have heq : chunkTextLoop words start = [(words.drop start).take 1100] := by
      rw [chunkTextLoopEqn words start h, if_pos hle]
    have hfull : (words.drop start).take 1100 = words.drop start :=
      List.take_of_length_le (by simp only [List.length_drop]; omega)
    refine ⟨?_, ?_, ?_, ?_⟩
    · intro i hi
      rw [heq] at hi
      rw [heq]
      have hi0 : i = 0 := by
        simp only [List.length_singleton] at hi
        omega
      subst hi0
      simp
    · intro w hw
      refine ⟨(words.drop start).take 1100, ?_, ?_⟩
      · rw [heq]
        exact List.mem_singleton_self _
      · rw [hfull]
        exact hw
    · rw [heq]
      exact List.chain'_singleton _
    · intro i hcond
      rw [heq] at hcond
      simp only [List.length_singleton] at hcond
      omega
  · have hlt : start + 1000 < words.length := by omega
    have heq : chunkTextLoop words start =
        ((words.drop start).take 1100) :: chunkTextLoop words (start + 1000) := by
      rw [chunkTextLoopEqn words start h, if_neg hle]
    obtain ⟨iha, ihb, ihc, ihd⟩ := chunkTextLoopProps words (start + 1000) hlt
    refine ⟨?_, ?_, ?_, ?_⟩
    · intro i hi
      rw [heq] at hi
      rw [heq]
      cases i with
      | zero => simp
      | succ j =>
        have hj : j < (chunkTextLoop words (start + 1000)).length := by
          simpa using hi
        have hget := iha j hj
        have harg : start + 1000 + 1000 * j = start + 1000 * (j + 1) := by ring
        rw [harg] at hget
        simpa using hget
    · intro w hw
      have hsplit : words.drop start
          = (words.drop start).take 1100 ++ ((words.drop start).drop 1100) :=
        (List.take_append_drop 1100 (words.drop start)).symm
      rw [hsplit] at hw
      rcases List.mem_append.mp hw with hw1 | hw2
      · refine ⟨(words.drop start).take 1100, ?_, hw1⟩
        rw [heq]
        exact List.mem_cons_self _ _
      · have e1 : (words.drop start).drop 1100 = words.drop (start + 1100) :=
          dropDropEq words start 1100 (start + 1100) rfl
        have e2 : (words.drop (start + 1000)).drop 100 = words.drop (start + 1100) :=
          dropDropEq words (start + 1000) 100 (start + 1100) (by omega)
        rw [e1, ← e2] at hw2
        have hw3 : w ∈ words.drop (start + 1000) := List.drop_subset _ _ hw2
        obtain ⟨c, hc1, hc2⟩ := ihb w hw3
        refine ⟨c, ?_, hc2⟩
        rw [heq]
        exact List.mem_cons_of_mem _ hc1
    · rw [heq, List.chain'_cons']
      refine ⟨?_, ihc⟩
      intro y hy
      obtain ⟨t, ht⟩ := chunkTextLoopHead words (start + 1000) hlt
      rw [ht] at hy
      simp only [List.head?_cons, Option.mem_def, Option.some_inj] at hy
      subst hy
      have rhs_eq : ((words.drop (start + 1000)).take 1100).take 100
          = (words.drop (start + 1000)).take 100 := by
        rw [List.take_take]
        norm_num
      have lhs_eq : ((words.drop start).take 1100).drop 1000
          = (words.drop (start + 1000)).take 100 := by
        rw [List.drop_take, dropDropEq words start 1000 (start + 1000) rfl]
      rw [rhs_eq]
      exact lhs_eq
    · intro i hcond
      rw [heq] at hcond
      cases i with
      | zero => omega
      | succ j =>
        have hj : j + 1 < (chunkTextLoop words (start + 1000)).length := by
          simpa using hcond
        have := ihd j hj
        omega
termination_by words.length - start
decreasing_by omega

/-- Claim C4: for every nonempty word sequence, chunk_text with the default
chunk size 1100 and overlap 100 produces the windows starting at multiples
of 1000 = chunk_size - overlap (so the i-th chunk is words[1000*i :
1000*i+1100]), every input word appears in at least one chunk, adjacent
chunks share exactly the 100 overlap words (the last 100 words of one are
the first 100 of the next), every chunk except possibly the final one has
exactly 1100 words, and no chunk exceeds 1100 words. -/
theorem claim_C4 {α : Type} (words : List α) (hw : words ≠ []) :
    (∀ i (hi : i < (chunk_text words).length),
        (chunk_text words).get ⟨i, hi⟩ = (words.drop (1000 * i)).take 1100) ∧
    (∀ w ∈ words, ∃ c ∈ chunk_text words, w ∈ c) ∧
    List.Chain' (fun a b => a.drop 1000 = b.take 100) (chunk_text words) ∧
    (∀ i (hi : i + 1 < (chunk_text words).length),
        ((chunk_text words).get ⟨i, Nat.lt_of_succ_lt hi⟩).length = 1100) ∧
    (∀ c ∈ chunk_text words, c.length ≤ 1100) := by
  have h0 : 0 < words.length := List.length_pos.mpr hw
  obtain ⟨pa, pb, pc, pd⟩ := chunkTextLoopProps words 0 h0
  have hget : ∀ i (hi : i < (chunk_text words).length),
      (chunk_text words).get ⟨i, hi⟩ = (words.drop (1000 * i)).take 1100 := by
    intro i hi
    have h1 : (chunk_text words).get? i = some ((words.drop (0 + 1000 * i)).take 1100) :=
      pa i hi
    have h2 : (chunk_text words).get? i = some ((chunk_text words).get ⟨i, hi⟩) :=
      List.get?_eq_get hi
    have h3 := Option.some_injective _ (h2.symm.trans h1)
    rw [h3]
    congr 2
    omega
  refine ⟨hget, ?_, pc, ?_, ?_⟩
  · intro w hmem
    exact pb w (by simpa using hmem)
  · intro i hi
    have hlen := pd i hi
    rw [hget i (Nat.lt_of_succ_lt hi)]
    simp only [List.length_take, List.length_drop]
    omega
  · intro c hc
    obtain ⟨n, hn⟩ := List.mem_iff_get?.mp hc
    obtain ⟨hb, hgetn⟩ := List.get?_eq_some.mp hn
    rw [← hgetn, hget n hb]
    exact (words.drop (1000 * n)).length_take_le 1100

theorem claim_C4_witness :
    ((["alpha"] : List String) ≠ []) ∧
    ((∀ i (hi : i < (chunk_text (["alpha"] : List String)).length),
        (chunk_text (["alpha"] : List String)).get ⟨i, hi⟩ =
          ((["alpha"] : List String).drop (1000 * i)).take 1100) ∧
     (∀ w ∈ (["alpha"] : List String), ∃ c ∈ chunk_text (["alpha"] : List String), w ∈ c) ∧
     List.Chain' (fun a b => a.drop 1000 = b.take 100) (chunk_text (["alpha"] : List String)) ∧
     (∀ i (hi : i + 1 < (chunk_text (["alpha"] : List String)).length),
        ((chunk_text (["alpha"] : List String)).get ⟨i, Nat.lt_of_succ_lt hi⟩).length = 1100) ∧
     (∀ c ∈ chunk_text (["alpha"] : List String), c.length ≤ 1100)) :=
  ⟨by decide, claim_C4 ["alpha"] (by decide)⟩

theorem claim_C6_witness :
    synthesise (fun _ => []) false (fun _ => [])
        (build_prompt (pyStrip (str "q"))
          (search ⟨some [[(1 : ℚ)]],
              [⟨some (str "d"), some (str "s"), 0, some (str "t"), some (str "t"), some 1⟩],
              false⟩
            (fun _ => [(1 : ℚ)]) (fun _ _ => 0) (pyStrip (str "q")) 1) (str "concise")) = [] ∧
    answer ⟨some [[(1 : ℚ)]],
        [⟨some (str "d"), some (str "s"), 0, some (str "t"), some (str "t"), some 1⟩], false⟩
        (fun _ => [(1 : ℚ)]) (fun _ _ => 0) (fun _ => []) false (fun _ => [])
        (str "q") 1 (str "concise") = no_strong_match :=
  claim_C6_amended
    ⟨some [[(1 : ℚ)]],
      [⟨some (str "d"), some (str "s"), 0, some (str "t"), some (str "t"), some 1⟩], false⟩
    (fun _ => [(1 : ℚ)]) (fun _ _ => 0) (fun _ => []) false (fun _ => [])
    (str "q") 1 (str "concise") (by decide) rfl (Or.inl rfl)
